import Mathlib

/-!
Verification development for the speech-segmentation engine in `app/vad.py`
(`VADStream`).  The Python code is shallowly embedded: byte strings become
`List Nat`, the mutable per-utterance fields of `VADStream` become a record
`VADState`, callback invocations become emitted `Event`s, and an uncaught
Python exception becomes `Except.error` carrying the object state at the
point where the exception escaped (the processing thread dies, the object
state persists).
-/

/-- Engine configuration, mirroring the module-level constants of `vad.py`
(`SAMPLE_RATE`, `FRAME_DURATION_MS`, `START_CONSECUTIVE`, `END_CONSECUTIVE`).
`VAD_MODE`, `DEVICE` and `BLOCK_SIZE` only parametrise the external
collaborators and are not needed by the embedded logic. -/
structure Config where
  sampleRate : Nat
  frameDurationMs : Nat
  startConsecutive : Nat
  endConsecutive : Nat
  deriving DecidableEq

/-- `BYTES_PER_SAMPLE = 2` in `vad.py` (16-bit samples). -/
def bytesPerSample : Nat := 2

/-- The configuration values hard-coded at the top of `vad.py`:
sample rate 16000, 30 ms frames, 3 consecutive speech frames to start,
10 consecutive silence frames to end. -/
def sourceConfig : Config := ⟨16000, 30, 3, 10⟩

/-- `FRAME_SIZE = int(SAMPLE_RATE * FRAME_DURATION_MS / 1000)`. -/
def Config.frameSize (c : Config) : Nat := c.sampleRate * c.frameDurationMs / 1000

/-- `FRAME_BYTES = FRAME_SIZE * BYTES_PER_SAMPLE`. -/
def Config.frameBytes (c : Config) : Nat := c.frameSize * bytesPerSample

/-- The mutable per-utterance fields of `VADStream`: `_speech`,
`_start_counter`, `_end_counter` and `_segment` (a byte buffer). -/
structure VADState where
  speech : Bool
  startCounter : Nat
  endCounter : Nat
  segment : List Nat
  deriving DecidableEq

/-- The field values set by `VADStream.__init__`. -/
def initState : VADState := ⟨false, 0, 0, []⟩

/-- Little-endian 16-bit encoding of a number, as written into a WAV header. -/
def u16le (n : Nat) : List Nat := [n % 256, n / 256 % 256]

/-- Little-endian 32-bit encoding of a number, as written into a WAV header. -/
def u32le (n : Nat) : List Nat :=
  [n % 256, n / 256 % 256, n / 65536 % 256, n / 16777216 % 256]

/-- The byte string produced by `VADStream._pcm_to_wav_bytes` (vad.py lines
75-82).  The Python `wave` module, for one channel, sample width 2 and the
configured frame rate, emits the canonical 44-byte RIFF/WAVE header (RIFF tag,
riff chunk size, WAVE tag, fmt chunk of 16 bytes with PCM format 1, one
channel, the sample rate, byte rate, block align 2 and 16 bits per sample,
then the data tag and data size) followed by the raw PCM bytes. -/
def wavBytes (c : Config) (pcm : List Nat) : List Nat :=
  [82, 73, 70, 70] ++ u32le (36 + pcm.length) ++ [87, 65, 86, 69] ++
  [102, 109, 116, 32] ++ u32le 16 ++ u16le 1 ++ u16le 1 ++
  u32le c.sampleRate ++ u32le (c.sampleRate * bytesPerSample) ++
  u16le bytesPerSample ++ u16le 16 ++
  [100, 97, 116, 97] ++ u32le pcm.length ++ pcm

/-- Read a little-endian 32-bit value from the head of a byte list. -/
def readU32le : List Nat → Nat
  | b0 :: b1 :: b2 :: b3 :: _ =>
      b0 % 256 + b1 % 256 * 256 + b2 % 256 * 65536 + b3 % 256 * 16777216
  | _ => 0

/-- Modelled from the spec: a standard audio container reader (the decoding
side of `ContainerEncoder`, which in the source is the external `wave`
library, not repository code).  It checks the RIFF/WAVE/data tags of the
canonical header, reads the declared data size at offset 40 and returns the
data payload when the buffer holds exactly that many bytes after the 44-byte
header. -/
def wavDecode (bs : List Nat) : Option (List Nat) :=
  if bs.take 4 = [82, 73, 70, 70] ∧ (bs.drop 8).take 4 = [87, 65, 86, 69] ∧
      (bs.drop 36).take 4 = [100, 97, 116, 97] then
    let d := readU32le (bs.drop 40)
    if (bs.drop 44).length = d then some ((bs.drop 44).take d) else none
  else none

/-- Outcome of the external classifier call `self.vad.is_speech(...)` on one
frame: either a boolean verdict or a raised exception. -/
inductive CResult where
  | ok (b : Bool)
  | err
  deriving DecidableEq

/-- One frame handed to `VADStream._process_frame`, together with the
behaviour of the external collaborators on that call: the classifier's
outcome and whether each user callback, if invoked on this frame, raises. -/
structure FrameInput where
  classify : CResult
  startThrows : Bool
  endThrows : Bool
  bytes : List Nat
  deriving DecidableEq

/-- A well-behaved speech frame: classifier returns true, callbacks return
normally. -/
def okTrue (tb : List Nat) : FrameInput := ⟨CResult.ok true, false, false, tb⟩

/-- A well-behaved silence frame: classifier returns false, callbacks return
normally. -/
def okFalse (fb : List Nat) : FrameInput := ⟨CResult.ok false, false, false, fb⟩

/-- A frame on which the classifier call raises. -/
def errFrame (tb : List Nat) : FrameInput := ⟨CResult.err, false, false, tb⟩

/-- Callback invocations observable by the caller. -/
inductive Event where
  | speechStart
  | speechEnd (wav : List Nat) (duration : ℚ)
  deriving DecidableEq

/-- Shallow embedding of `VADStream._process_frame` (vad.py lines 84-113).
The returned event list records the callback invocations that returned
normally, in order.  `Except.error s` means an exception escaped
`_process_frame` (there is no handler in `_process_frame` or in
`_processing_loop` for it, so the processing thread dies); `s` is the object
state at that point, since the mutations already made to `self` persist.
Control flow, line by line: classify; on a speech verdict increment
`_start_counter` and zero `_end_counter`, otherwise increment `_end_counter`
and zero `_start_counter`; if not in speech and the start counter reached
`START_CONSECUTIVE`, set `_speech`, zero the start counter, clear the
segment and invoke `on_speech_start`; if in speech, append the frame bytes
to the segment; if in speech and the end counter reached `END_CONSECUTIVE`,
clear `_speech`, zero the end counter, encode the segment as WAV, compute
`len(segment) / (SAMPLE_RATE * BYTES_PER_SAMPLE)` and invoke
`on_speech_end` with both. -/
def processFrame (c : Config) (s : VADState) (inp : FrameInput) :
    List Event × Except VADState VADState :=
  match inp.classify with
  | CResult.err => ([], Except.error s)
  | CResult.ok isSpeech =>
    let startCounter1 := if isSpeech then s.startCounter + 1 else 0
    let endCounter1 := if isSpeech then 0 else s.endCounter + 1
    let doStart := !s.speech && decide (c.startConsecutive ≤ startCounter1)
    let speech2 := s.speech || doStart
    let startCounter2 := if doStart then 0 else startCounter1
    let segment2 := if doStart then [] else s.segment
    if doStart && inp.startThrows then
      ([], Except.error ⟨true, 0, endCounter1, []⟩)
    else
      let startEvents := if doStart then [Event.speechStart] else []
      let segment3 := if speech2 then segment2 ++ inp.bytes else segment2
      if speech2 && decide (c.endConsecutive ≤ endCounter1) then
        let dur : ℚ := (segment3.length : ℚ) / ((c.sampleRate * bytesPerSample : Nat) : ℚ)
        if inp.endThrows then
          (startEvents, Except.error ⟨false, startCounter2, 0, segment3⟩)
        else
          (startEvents ++ [Event.speechEnd (wavBytes c segment3) dur],
            Except.ok ⟨false, startCounter2, 0, segment3⟩)
      else
        (startEvents, Except.ok ⟨speech2, startCounter2, endCounter1, segment3⟩)

/-- Frame-by-frame run of the processing thread over a list of frames
(the inner loop of `VADStream._processing_loop` feeding
`_process_frame`).  The result collects the events of all processed frames;
the second component is `some` final state if every frame was processed and
`none` if an exception escaped on some frame, in which case the following
frames are never processed (the thread is dead). -/
def processStream (c : Config) : VADState → List FrameInput → List Event × Option VADState
  | s, [] => ([], some s)
  | s, inp :: rest =>
    match processFrame c s inp with
    | (evs, Except.error _) => (evs, none)
    | (evs, Except.ok s') =>
      let r := processStream c s' rest
      (evs ++ r.1, r.2)

/-- The `while len(buffer) >= FRAME_BYTES` loop of
`VADStream._processing_loop` (vad.py lines 123-126): repeatedly split off the
first `fb` bytes of the buffer as a frame.  The positivity guard on `fb` is
needed for termination; the source runs it only at `FRAME_BYTES = 960`. -/
def emitFrames (fb : Nat) (buffer : List Nat) : List (List Nat) × List Nat :=
  if _h : 0 < fb ∧ fb ≤ buffer.length then
    let r := emitFrames fb (buffer.drop fb)
    (buffer.take fb :: r.1, r.2)
  else
    ([], buffer)
termination_by buffer.length
decreasing_by
  simp only [List.length_drop]
  omega

/-- The frame assembler of `VADStream._processing_loop`: each incoming block
is appended to the carry buffer, then whole frames are split off.  Returns
the emitted frames of all blocks in order and the final carry buffer. -/
def assembleBlocks (fb : Nat) : List Nat → List (List Nat) → List (List Nat) × List Nat
  | carry, [] => ([], carry)
  | carry, b :: bs =>
    let r1 := emitFrames fb (carry ++ b)
    let r2 := assembleBlocks fb r1.2 bs
    (r1.1 ++ r2.1, r2.2)

/-- The lifecycle-relevant state of a `VADStream` object: the `running` flag,
the queue contents, the carry buffer of the processing thread's local
`buffer` variable, and the per-utterance fields. -/
structure Engine where
  running : Bool
  q : List (List Nat)
  carry : List Nat
  vs : VADState
  deriving DecidableEq

/-- `VADStream.stop` (vad.py lines 65-73): clear `running`, stop the device
stream, and drain the queue with `get_nowait` until empty.  The thread-local
carry buffer disappears with the exiting thread; the per-utterance fields
are not touched. -/
def Engine.stop (e : Engine) : Engine := { e with running := false, q := [] }

/-- `VADStream.start` (vad.py lines 49-63): set `running` and launch a fresh
processing thread, whose local `buffer = bytearray()` starts empty.  The
per-utterance fields are not touched. -/
def Engine.start (e : Engine) : Engine := { e with running := true, carry := [] }

/-- Concatenation of `k` copies of a byte list, used to describe segments
accumulated over runs of identical frames. -/
def repcat : Nat → List Nat → List Nat
  | 0, _ => []
  | n + 1, x => x ++ repcat n x

/-- True exactly on the speech-start event. -/
def isStartEv : Event → Bool
  | Event.speechStart => true
  | _ => false

/-- True exactly on speech-end events. -/
def isEndEv : Event → Bool
  | Event.speechEnd _ _ => true
  | _ => false

/-- Number of speech-start callback invocations in an event list. -/
def countStart (l : List Event) : Nat := (l.filter isStartEv).length

/-- Number of speech-end callback invocations in an event list. -/
def countEnd (l : List Event) : Nat := (l.filter isEndEv).length

/-- The durations carried by the speech-end events of an event list, in
order. -/
def endDurations (l : List Event) : List ℚ :=
  l.filterMap fun e =>
    match e with
    | Event.speechEnd _ d => some d
    | _ => none

/-- A frame on which every external collaborator behaves: the classifier
returns a verdict and neither callback raises. -/
def Benign (inp : FrameInput) : Prop :=
  inp.classify ≠ CResult.err ∧ inp.startThrows = false ∧ inp.endThrows = false

instance (inp : FrameInput) : Decidable (Benign inp) := by
  unfold Benign; infer_instance

/-! ### Single-frame behaviour of the state machine -/

theorem processFrame_okFalse_idle (c : Config) (j e : Nat) (seg fbts : List Nat)
    (hS : 0 < c.startConsecutive) :
    processFrame c ⟨false, j, e, seg⟩ (okFalse fbts) =
      ([], Except.ok ⟨false, 0, e + 1, seg⟩) := by
  have h1 : ¬ (c.startConsecutive ≤ 0) := by omega
  simp [processFrame, okFalse, h1]

theorem processFrame_okTrue_idle_low (c : Config) (j e : Nat) (seg tbts : List Nat)
    (h : j + 1 < c.startConsecutive) :
    processFrame c ⟨false, j, e, seg⟩ (okTrue tbts) =
      ([], Except.ok ⟨false, j + 1, 0, seg⟩) := by
  have h1 : ¬ (c.startConsecutive ≤ j + 1) := by omega
  simp [processFrame, okTrue, h1]

theorem processFrame_okTrue_idle_fire (c : Config) (j e : Nat) (seg tbts : List Nat)
    (h : c.startConsecutive ≤ j + 1) (hE : 0 < c.endConsecutive) :
    processFrame c ⟨false, j, e, seg⟩ (okTrue tbts) =
      ([Event.speechStart], Except.ok ⟨true, 0, 0, tbts⟩) := by
  have h1 : ¬ (c.endConsecutive ≤ 0) := by omega
  simp [processFrame, okTrue, h, h1]

theorem processFrame_okTrue_speaking (c : Config) (j e : Nat) (seg tbts : List Nat)
    (hE : 0 < c.endConsecutive) :
    processFrame c ⟨true, j, e, seg⟩ (okTrue tbts) =
      ([], Except.ok ⟨true, j + 1, 0, seg ++ tbts⟩) := by
  have h1 : ¬ (c.endConsecutive ≤ 0) := by omega
  simp [processFrame, okTrue, h1]

theorem processFrame_okFalse_speaking_low (c : Config) (j e : Nat) (seg fbts : List Nat)
    (h : e + 1 < c.endConsecutive) :
    processFrame c ⟨true, j, e, seg⟩ (okFalse fbts) =
      ([], Except.ok ⟨true, 0, e + 1, seg ++ fbts⟩) := by
  have h1 : ¬ (c.endConsecutive ≤ e + 1) := by omega
  simp [processFrame, okFalse, h1]

theorem processFrame_okFalse_speaking_fire (c : Config) (j e : Nat) (seg fbts : List Nat)
    (h : c.endConsecutive ≤ e + 1) :
    processFrame c ⟨true, j, e, seg⟩ (okFalse fbts) =
      ([Event.speechEnd (wavBytes c (seg ++ fbts))
          (((seg ++ fbts).length : ℚ) / ((c.sampleRate * bytesPerSample : Nat) : ℚ))],
        Except.ok ⟨false, 0, 0, seg ++ fbts⟩) := by
  simp [processFrame, okFalse, h]

theorem processFrame_err (c : Config) (s : VADState) (inp : FrameInput)
    (h : inp.classify = CResult.err) :
    processFrame c s inp = ([], Except.error s) := by
  simp [processFrame, h]

theorem processFrame_startThrow (c : Config) (j e : Nat) (seg tbts : List Nat) (et : Bool)
    (h : c.startConsecutive ≤ j + 1) :
    processFrame c ⟨false, j, e, seg⟩ ⟨CResult.ok true, true, et, tbts⟩ =
      ([], Except.error ⟨true, 0, 0, []⟩) := by
  simp [processFrame, h]

theorem processFrame_endThrow (c : Config) (j e : Nat) (seg fbts : List Nat) (st : Bool)
    (h : c.endConsecutive ≤ e + 1) :
    processFrame c ⟨true, j, e, seg⟩ ⟨CResult.ok false, st, true, fbts⟩ =
      ([], Except.error ⟨false, 0, 0, seg ++ fbts⟩) := by
  simp [processFrame, h]

/-! ### Stream-level lemmas -/

theorem processStream_nil (c : Config) (s : VADState) :
    processStream c s [] = ([], some s) := rfl

theorem processStream_cons (c : Config) (s : VADState) (inp : FrameInput)
    (rest : List FrameInput) :
    processStream c s (inp :: rest) =
      match processFrame c s inp with
      | (evs, Except.error _) => (evs, none)
      | (evs, Except.ok s') =>
        ((evs ++ (processStream c s' rest).1), (processStream c s' rest).2) := by
  simp [processStream]

theorem processStream_cons_ok (c : Config) (s s' : VADState) (inp : FrameInput)
    (evs : List Event) (rest : List FrameInput)
    (h : processFrame c s inp = (evs, Except.ok s')) :
    processStream c s (inp :: rest) =
      (evs ++ (processStream c s' rest).1, (processStream c s' rest).2) := by
  simp [processStream, h]

theorem processStream_cons_err (c : Config) (s d : VADState) (inp : FrameInput)
    (evs : List Event) (rest : List FrameInput)
    (h : processFrame c s inp = (evs, Except.error d)) :
    processStream c s (inp :: rest) = (evs, none) := by
  simp [processStream, h]

theorem processStream_append_ok (c : Config) (s s' : VADState)
    (l1 l2 : List FrameInput) (h : (processStream c s l1).2 = some s') :
    processStream c s (l1 ++ l2) =
      ((processStream c s l1).1 ++ (processStream c s' l2).1,
        (processStream c s' l2).2) := by
  induction l1 generalizing s with
  | nil =>
    simp [processStream_nil] at h
    subst h
    simp [processStream_nil]
  | cons inp rest ih =>
    rcases hf : processFrame c s inp with ⟨evs, r⟩
    cases r with
    | error d =>
      rw [processStream_cons_err c s d inp evs rest hf] at h
      simp at h
    | ok s1 =>
      rw [processStream_cons_ok c s s1 inp evs rest hf] at h
      simp at h
      rw [List.cons_append, processStream_cons_ok c s s1 inp evs (rest ++ l2) hf,
        ih s1 h, processStream_cons_ok c s s1 inp evs rest hf]
      simp

theorem countStart_append (l1 l2 : List Event) :
    countStart (l1 ++ l2) = countStart l1 + countStart l2 := by
  simp [countStart, List.filter_append]

theorem countEnd_append (l1 l2 : List Event) :
    countEnd (l1 ++ l2) = countEnd l1 + countEnd l2 := by
  simp [countEnd, List.filter_append]

theorem repcat_succ' (n : Nat) (x : List Nat) :
    repcat (n + 1) x = repcat n x ++ x := by
  induction n with
  | zero => simp [repcat]
  | succ m ih =>
    calc repcat (m + 1 + 1) x = x ++ repcat (m + 1) x := rfl
      _ = x ++ (repcat m x ++ x) := by rw [ih]
      _ = (x ++ repcat m x) ++ x := by rw [List.append_assoc]
      _ = repcat (m + 1) x ++ x := rfl

/-- While idle with a zero start counter, silence frames only advance the end
counter and produce no events. -/
theorem stream_falses_idle (c : Config) (hS : 0 < c.startConsecutive) :
    ∀ (k e : Nat) (seg fbts : List Nat),
      processStream c ⟨false, 0, e, seg⟩ (List.replicate k (okFalse fbts)) =
        ([], some ⟨false, 0, e + k, seg⟩) := by
  intro k
  induction k with
  | zero => intro e seg fbts; simp [processStream_nil]
  | succ m ih =>
    intro e seg fbts
    rw [List.replicate_succ,
      processStream_cons_ok c _ _ _ _ _ (processFrame_okFalse_idle c 0 e seg fbts hS),
      ih (e + 1) seg fbts]
    have h1 : e + 1 + m = e + (m + 1) := by omega
    simp [h1]

/-- While idle, a run of speech frames too short to reach the start threshold
only advances the start counter and produces no events. -/
theorem stream_trues_idle (c : Config) :
    ∀ (k j e : Nat) (seg tbts : List Nat), j + k < c.startConsecutive →
      processStream c ⟨false, j, e, seg⟩ (List.replicate k (okTrue tbts)) =
        ([], some ⟨false, j + k, if k = 0 then e else 0, seg⟩) := by
  intro k
  induction k with
  | zero => intro j e seg tbts _; simp [processStream_nil]
  | succ m ih =>
    intro j e seg tbts h
    have h1 : j + 1 < c.startConsecutive := by omega
    rw [List.replicate_succ,
      processStream_cons_ok c _ _ _ _ _ (processFrame_okTrue_idle_low c j e seg tbts h1),
      ih (j + 1) 0 seg tbts (by omega)]
    have h2 : j + 1 + m = j + (m + 1) := by omega
    simp [h2]

/-- While speaking with a zero end counter, speech frames advance the start
counter, keep the end counter at zero, append each frame to the segment and
produce no events. -/
theorem stream_trues_speaking (c : Config) (hE : 0 < c.endConsecutive) :
    ∀ (k j : Nat) (seg tbts : List Nat),
      processStream c ⟨true, j, 0, seg⟩ (List.replicate k (okTrue tbts)) =
        ([], some ⟨true, j + k, 0, seg ++ repcat k tbts⟩) := by
  intro k
  induction k with
  | zero => intro j seg tbts; simp [processStream_nil, repcat]
  | succ m ih =>
    intro j seg tbts
    rw [List.replicate_succ,
      processStream_cons_ok c _ _ _ _ _ (processFrame_okTrue_speaking c j 0 seg tbts hE),
      ih (j + 1) (seg ++ tbts) tbts]
    have h2 : j + 1 + m = j + (m + 1) := by omega
    simp [h2, repcat, List.append_assoc]

/-- While speaking, a run of silence frames too short to reach the end
threshold advances the end counter, appends each frame to the segment and
produces no events. -/
theorem stream_falses_speaking (c : Config) :
    ∀ (k e j : Nat) (seg fbts : List Nat), e + k < c.endConsecutive →
      processStream c ⟨true, j, e, seg⟩ (List.replicate k (okFalse fbts)) =
        ([], some ⟨true, if k = 0 then j else 0, e + k, seg ++ repcat k fbts⟩) := by
  intro k
  induction k with
  | zero => intro e j seg fbts _; simp [processStream_nil, repcat]
  | succ m ih =>
    intro e j seg fbts h
    have h1 : e + 1 < c.endConsecutive := by omega
    rw [List.replicate_succ,
      processStream_cons_ok c _ _ _ _ _ (processFrame_okFalse_speaking_low c j e seg fbts h1),
      ih (e + 1) 0 (seg ++ fbts) fbts (by omega)]
    have h2 : e + 1 + m = e + (m + 1) := by omega
    simp [h2, repcat, List.append_assoc]

theorem repcat_length (n : Nat) (x : List Nat) :
    (repcat n x).length = n * x.length := by
  induction n with
  | zero => simp [repcat]
  | succ m ih => simp [repcat, ih]; ring

/-- A silence frame never produces a speech-start event and never raises,
from any state. -/
theorem processFrame_okFalse_noStart (c : Config) (s : VADState) (fbts : List Nat)
    (hS : 0 < c.startConsecutive) :
    ∃ evs s', processFrame c s (okFalse fbts) = (evs, Except.ok s') ∧ countStart evs = 0 := by
  rcases s with ⟨sp, sc, ec, seg⟩
  cases sp with
  | false =>
    exact ⟨_, _, processFrame_okFalse_idle c sc ec seg fbts hS, rfl⟩
  | true =>
    by_cases hc : c.endConsecutive ≤ ec + 1
    · exact ⟨_, _, processFrame_okFalse_speaking_fire c sc ec seg fbts hc, rfl⟩
    · exact ⟨_, _, processFrame_okFalse_speaking_low c sc ec seg fbts (by omega), rfl⟩

/-- A run of silence frames never produces a speech-start event, from any
state. -/
theorem stream_falses_noStart (c : Config) (hS : 0 < c.startConsecutive) :
    ∀ (k : Nat) (s : VADState) (fbts : List Nat),
      countStart (processStream c s (List.replicate k (okFalse fbts))).1 = 0 := by
  intro k
  induction k with
  | zero => intro s fbts; simp [processStream_nil, countStart]
  | succ m ih =>
    intro s fbts
    obtain ⟨evs, s', hp, h0⟩ := processFrame_okFalse_noStart c s fbts hS
    rw [List.replicate_succ, processStream_cons_ok c s s' _ evs _ hp]
    simp [countStart_append, h0, ih]

/-- A frame on which the classifier and the callbacks behave is always fully
processed: no exception escapes. -/
theorem processFrame_benign_ok (c : Config) (s : VADState) (inp : FrameInput)
    (h : Benign inp) :
    ∃ evs s', processFrame c s inp = (evs, Except.ok s') := by
  obtain ⟨hc, hst, het⟩ := h
  rcases hp : processFrame c s inp with ⟨evs, r⟩
  rcases r with d | s'
  · exfalso
    rcases hcl : inp.classify with b | _
    · simp only [processFrame, hcl, hst, het, Bool.and_false, Bool.false_eq_true,
        if_false] at hp
      split_ifs at hp <;> simp at hp
    · exact absurd hcl hc
  · exact ⟨evs, s', rfl⟩

/-- A stream of well-behaved frames is always fully processed. -/
theorem stream_benign_ok (c : Config) :
    ∀ (l : List FrameInput) (s : VADState), (∀ i ∈ l, Benign i) →
      ∃ s', (processStream c s l).2 = some s' := by
  intro l
  induction l with
  | nil => intro s _; exact ⟨s, rfl⟩
  | cons inp rest ih =>
    intro s h
    obtain ⟨evs, s1, hp⟩ := processFrame_benign_ok c s inp (h inp (by simp))
    rw [processStream_cons_ok c s s1 inp evs rest hp]
    exact ih s1 (fun i hi => h i (by simp [hi]))

/-! ### Concrete runs with the source configuration -/

/-- A full frame of the source configuration (960 bytes) with sample bytes 1. -/
def oneFrame : List Nat := List.replicate 960 1

/-- A full frame of the source configuration (960 bytes) with sample bytes 0. -/
def zeroFrame : List Nat := List.replicate 960 0

/-- The spec scenario: 3 speech frames followed by 10 silence frames. -/
def scenarioFrames : List FrameInput :=
  List.replicate 3 (okTrue oneFrame) ++ List.replicate 10 (okFalse zeroFrame)

/-- With the source configuration, three consecutive speech frames from the
fresh state fire exactly one speech-start on the third frame and leave the
segment holding only that third frame. -/
theorem run3T (tb : List Nat) :
    processStream sourceConfig initState (List.replicate 3 (okTrue tb)) =
      ([Event.speechStart], some ⟨true, 0, 0, tb⟩) := by
  have h2 := stream_trues_idle sourceConfig 2 0 0 [] tb (by decide)
  rw [show (3 : Nat) = 2 + 1 from rfl, List.replicate_succ',
    processStream_append_ok sourceConfig initState ⟨false, 2, 0, []⟩ _ _ (by rw [show (initState : VADState) = ⟨false, 0, 0, []⟩ from rfl, h2]; rfl)]
  rw [show (initState : VADState) = ⟨false, 0, 0, []⟩ from rfl, h2,
    processStream_cons_ok sourceConfig _ _ _ _ _ (processFrame_okTrue_idle_fire sourceConfig 2 0 [] tb (by decide) (by decide)),
    processStream_nil]
  simp

/-- With the source configuration, ten consecutive silence frames from a
speaking state with a zero end counter fire exactly one speech-end on the
tenth frame, with the ten silence frames appended to the segment. -/
theorem run10F (seg fbt : List Nat) :
    processStream sourceConfig ⟨true, 0, 0, seg⟩ (List.replicate 10 (okFalse fbt)) =
      ([Event.speechEnd (wavBytes sourceConfig (seg ++ repcat 10 fbt))
          (((seg ++ repcat 10 fbt).length : ℚ) /
            ((sourceConfig.sampleRate * bytesPerSample : Nat) : ℚ))],
        some ⟨false, 0, 0, seg ++ repcat 10 fbt⟩) := by
  have h9 := stream_falses_speaking sourceConfig 9 0 0 seg fbt (by decide)
  simp only [show (0 + 9 : Nat) = 9 from rfl, if_neg (by omega : ¬ (9 : Nat) = 0)] at h9
  rw [show (10 : Nat) = 9 + 1 from rfl, List.replicate_succ',
    processStream_append_ok sourceConfig _ ⟨true, 0, 9, seg ++ repcat 9 fbt⟩ _ _ (by rw [h9]),
    h9,
    processStream_cons_ok sourceConfig _ _ _ _ _ (processFrame_okFalse_speaking_fire sourceConfig 0 9 (seg ++ repcat 9 fbt) fbt (by decide)),
    processStream_nil]
  rw [List.append_assoc, show repcat 9 fbt ++ fbt = repcat (9 + 1) fbt from (repcat_succ' 9 fbt).symm]
  simp

/-- Every speech-end event emitted by a fully processed frame carries the WAV
encoding of the post-frame segment and the duration computed from that same
segment (which the end transition leaves in place). -/
theorem speechEnd_shape (c : Config) (s : VADState) (inp : FrameInput)
    (evs : List Event) (s' : VADState) (wav : List Nat) (d : ℚ)
    (hp : processFrame c s inp = (evs, Except.ok s'))
    (hm : Event.speechEnd wav d ∈ evs) :
    wav = wavBytes c s'.segment ∧
      d = (s'.segment.length : ℚ) / ((c.sampleRate * bytesPerSample : Nat) : ℚ) := by
  rcases hcl : inp.classify with b | _
  · simp only [processFrame, hcl] at hp
    split_ifs at hp <;>
      first
        | (rw [Prod.mk.injEq] at hp
           obtain ⟨he, hs2⟩ := hp
           rw [Except.ok.injEq] at hs2
           subst hs2
           subst he
           rcases List.mem_append.mp hm with h | h
           · simp at h
           · rw [List.mem_singleton, Event.speechEnd.injEq] at h
             obtain ⟨hw, hd⟩ := h
             subst hw
             subst hd
             exact ⟨rfl, rfl⟩)
        | (rw [Prod.mk.injEq] at hp
           obtain ⟨he, hs2⟩ := hp
           rw [Except.ok.injEq] at hs2
           subst hs2
           subst he
           simp at hm)
        | (rw [Prod.mk.injEq] at hp
           obtain ⟨he, hs2⟩ := hp
           exact absurd hs2 (by simp))
  · simp only [processFrame, hcl] at hp
    rw [Prod.mk.injEq] at hp
    exact absurd hp.2 (by simp)

/-- The hysteresis invariant of the state machine: at most one counter is
nonzero, the start counter stays below the start threshold while idle, and
the end counter stays below the end threshold while speaking. -/
def GateInv (c : Config) (s : VADState) : Prop :=
  (s.startCounter = 0 ∨ s.endCounter = 0) ∧
  (s.speech = false → s.startCounter < c.startConsecutive) ∧
  (s.speech = true → s.endCounter < c.endConsecutive)

instance (c : Config) (s : VADState) : Decidable (GateInv c s) := by
  unfold GateInv; infer_instance

theorem GateInv_preserved (c : Config) (hS : 0 < c.startConsecutive)
    (hE : 0 < c.endConsecutive) (s : VADState) (inp : FrameInput) (b : Bool)
    (evs : List Event) (s' : VADState) (hcl : inp.classify = CResult.ok b)
    (hst : inp.startThrows = false) (het : inp.endThrows = false)
    (hp : processFrame c s inp = (evs, Except.ok s')) (_hinv : GateInv c s) :
    GateInv c s' := by
  rcases inp with ⟨cl, st, et, bts⟩
  simp only at hcl hst het
  subst hcl
  subst hst
  subst het
  rcases s with ⟨sp, sc, ec, seg⟩
  cases b with
  | true =>
    cases sp with
    | false =>
      by_cases hfire : c.startConsecutive ≤ sc + 1
      · rw [show (⟨CResult.ok true, false, false, bts⟩ : FrameInput) = okTrue bts from rfl,
          processFrame_okTrue_idle_fire c sc ec seg bts hfire hE,
          Prod.mk.injEq, Except.ok.injEq] at hp
        obtain ⟨-, hs2⟩ := hp
        subst hs2
        exact ⟨Or.inl rfl, by simp, fun _ => hE⟩
      · rw [show (⟨CResult.ok true, false, false, bts⟩ : FrameInput) = okTrue bts from rfl,
          processFrame_okTrue_idle_low c sc ec seg bts (by omega),
          Prod.mk.injEq, Except.ok.injEq] at hp
        obtain ⟨-, hs2⟩ := hp
        subst hs2
        exact ⟨Or.inr rfl, fun _ => by show sc + 1 < c.startConsecutive; omega, by simp⟩
    | true =>
      rw [show (⟨CResult.ok true, false, false, bts⟩ : FrameInput) = okTrue bts from rfl,
        processFrame_okTrue_speaking c sc ec seg bts hE,
        Prod.mk.injEq, Except.ok.injEq] at hp
      obtain ⟨-, hs2⟩ := hp
      subst hs2
      exact ⟨Or.inr rfl, by simp, fun _ => hE⟩
  | false =>
    cases sp with
    | false =>
      rw [show (⟨CResult.ok false, false, false, bts⟩ : FrameInput) = okFalse bts from rfl,
        processFrame_okFalse_idle c sc ec seg bts hS,
        Prod.mk.injEq, Except.ok.injEq] at hp
      obtain ⟨-, hs2⟩ := hp
      subst hs2
      exact ⟨Or.inl rfl, fun _ => hS, by simp⟩
    | true =>
      by_cases hfire : c.endConsecutive ≤ ec + 1
      · rw [show (⟨CResult.ok false, false, false, bts⟩ : FrameInput) = okFalse bts from rfl,
          processFrame_okFalse_speaking_fire c sc ec seg bts hfire,
          Prod.mk.injEq, Except.ok.injEq] at hp
        obtain ⟨-, hs2⟩ := hp
        subst hs2
        exact ⟨Or.inl rfl, fun _ => hS, by simp⟩
      · rw [show (⟨CResult.ok false, false, false, bts⟩ : FrameInput) = okFalse bts from rfl,
          processFrame_okFalse_speaking_low c sc ec seg bts (by omega),
          Prod.mk.injEq, Except.ok.injEq] at hp
        obtain ⟨-, hs2⟩ := hp
        subst hs2
        exact ⟨Or.inl rfl, by simp, fun _ => by show ec + 1 < c.endConsecutive; omega⟩

/-! ### Frame assembler -/

theorem emitFrames_spec (fb : Nat) (hfb : 0 < fb) :
    ∀ (n : Nat) (buffer : List Nat), buffer.length ≤ n →
      (∀ f ∈ (emitFrames fb buffer).1, f.length = fb) ∧
      (emitFrames fb buffer).1.flatten ++ (emitFrames fb buffer).2 = buffer ∧
      (emitFrames fb buffer).2.length < fb := by
  intro n
  induction n with
  | zero =>
    intro buffer hlen
    have hb : buffer = [] := List.eq_nil_of_length_eq_zero (by omega)
    subst hb
    rw [emitFrames, dif_neg (by simp; omega : ¬ (0 < fb ∧ fb ≤ ([] : List Nat).length))]
    refine ⟨by simp, by simp, ?_⟩
    simpa using hfb
  | succ m ih =>
    intro buffer hlen
    rw [emitFrames]
    by_cases hc : 0 < fb ∧ fb ≤ buffer.length
    · rw [dif_pos hc]
      have hdrop : (buffer.drop fb).length ≤ m := by
        simp only [List.length_drop]
        omega
      obtain ⟨ih1, ih2, ih3⟩ := ih (buffer.drop fb) hdrop
      refine ⟨?_, ?_, ih3⟩
      · intro f hf
        rcases List.mem_cons.mp hf with hf1 | hf1
        · subst hf1
          simp only [List.length_take]
          omega
        · exact ih1 f hf1
      · simp only [List.flatten_cons, List.append_assoc, ih2]
        exact List.take_append_drop fb buffer
    · rw [dif_neg hc]
      refine ⟨by simp, by simp, ?_⟩
      simp only [List.length_nil]
      omega

theorem assembleBlocks_spec (fb : Nat) (hfb : 0 < fb) :
    ∀ (blocks : List (List Nat)) (carry : List Nat), carry.length < fb →
      (∀ f ∈ (assembleBlocks fb carry blocks).1, f.length = fb) ∧
      (assembleBlocks fb carry blocks).1.flatten ++ (assembleBlocks fb carry blocks).2 =
        carry ++ blocks.flatten ∧
      (assembleBlocks fb carry blocks).2.length < fb := by
  intro blocks
  induction blocks with
  | nil =>
    intro carry hc
    simp [assembleBlocks]
    exact hc
  | cons b bs ih =>
    intro carry hc
    obtain ⟨e1, e2, e3⟩ := emitFrames_spec fb hfb (carry ++ b).length (carry ++ b) le_rfl
    obtain ⟨i1, i2, i3⟩ := ih (emitFrames fb (carry ++ b)).2 e3
    simp only [assembleBlocks]
    refine ⟨?_, ?_, i3⟩
    · intro f hf
      rcases List.mem_append.mp hf with hf1 | hf1
      · exact e1 f hf1
      · exact i1 f hf1
    · simp only [List.flatten_append, List.append_assoc, i2]
      rw [← List.append_assoc, e2]
      simp [List.flatten_cons, List.append_assoc]

/-! ### Container round trip -/

theorem wavDecode_wavBytes (c : Config) (pcm : List Nat)
    (h : pcm.length < 4294967296) :
    wavDecode (wavBytes c pcm) = some pcm := by
  have h0 : wavBytes c pcm =
      [82, 73, 70, 70] ++
        (u32le (36 + pcm.length) ++
          ([87, 65, 86, 69] ++
            ([102, 109, 116, 32, 16, 0, 0, 0, 1, 0, 1, 0] ++
              (u32le c.sampleRate ++
                (u32le (c.sampleRate * bytesPerSample) ++
                  ([2, 0, 16, 0] ++
                    ([100, 97, 116, 97] ++ (u32le pcm.length ++ pcm)))))))) := by
    simp [wavBytes, u16le, u32le, bytesPerSample, List.append_assoc]
  have hTake4 : (wavBytes c pcm).take 4 = [82, 73, 70, 70] := by
    rw [h0]
    exact List.take_left' rfl
  have hDrop8 : (wavBytes c pcm).drop 8 =
      [87, 65, 86, 69] ++
        ([102, 109, 116, 32, 16, 0, 0, 0, 1, 0, 1, 0] ++
          (u32le c.sampleRate ++
            (u32le (c.sampleRate * bytesPerSample) ++
              ([2, 0, 16, 0] ++
                ([100, 97, 116, 97] ++ (u32le pcm.length ++ pcm)))))) := by
    rw [h0, ← List.append_assoc]
    exact List.drop_left' (by simp [u32le])
  have hDrop8Take : ((wavBytes c pcm).drop 8).take 4 = [87, 65, 86, 69] := by
    rw [hDrop8]
    exact List.take_left' rfl
  have hDrop36 : (wavBytes c pcm).drop 36 =
      [100, 97, 116, 97] ++ (u32le pcm.length ++ pcm) := by
    rw [h0]
    rw [show [82, 73, 70, 70] ++
        (u32le (36 + pcm.length) ++
          ([87, 65, 86, 69] ++
            ([102, 109, 116, 32, 16, 0, 0, 0, 1, 0, 1, 0] ++
              (u32le c.sampleRate ++
                (u32le (c.sampleRate * bytesPerSample) ++
                  ([2, 0, 16, 0] ++
                    ([100, 97, 116, 97] ++ (u32le pcm.length ++ pcm)))))))) =
        ([82, 73, 70, 70] ++ u32le (36 + pcm.length) ++ [87, 65, 86, 69] ++
          [102, 109, 116, 32, 16, 0, 0, 0, 1, 0, 1, 0] ++ u32le c.sampleRate ++
          u32le (c.sampleRate * bytesPerSample) ++ [2, 0, 16, 0]) ++
          ([100, 97, 116, 97] ++ (u32le pcm.length ++ pcm)) from by
      simp [List.append_assoc]]
    exact List.drop_left' (by simp [u32le])
  have hDrop36Take : ((wavBytes c pcm).drop 36).take 4 = [100, 97, 116, 97] := by
    rw [hDrop36]
    exact List.take_left' rfl
  have hDrop40 : (wavBytes c pcm).drop 40 = u32le pcm.length ++ pcm := by
    rw [h0]
    rw [show [82, 73, 70, 70] ++
        (u32le (36 + pcm.length) ++
          ([87, 65, 86, 69] ++
            ([102, 109, 116, 32, 16, 0, 0, 0, 1, 0, 1, 0] ++
              (u32le c.sampleRate ++
                (u32le (c.sampleRate * bytesPerSample) ++
                  ([2, 0, 16, 0] ++
                    ([100, 97, 116, 97] ++ (u32le pcm.length ++ pcm)))))))) =
        ([82, 73, 70, 70] ++ u32le (36 + pcm.length) ++ [87, 65, 86, 69] ++
          [102, 109, 116, 32, 16, 0, 0, 0, 1, 0, 1, 0] ++ u32le c.sampleRate ++
          u32le (c.sampleRate * bytesPerSample) ++ [2, 0, 16, 0] ++
          [100, 97, 116, 97]) ++ (u32le pcm.length ++ pcm) from by
      simp [List.append_assoc]]
    exact List.drop_left' (by simp [u32le])
  have hDrop44 : (wavBytes c pcm).drop 44 = pcm := by
    rw [h0]
    rw [show [82, 73, 70, 70] ++
        (u32le (36 + pcm.length) ++
          ([87, 65, 86, 69] ++
            ([102, 109, 116, 32, 16, 0, 0, 0, 1, 0, 1, 0] ++
              (u32le c.sampleRate ++
                (u32le (c.sampleRate * bytesPerSample) ++
                  ([2, 0, 16, 0] ++
                    ([100, 97, 116, 97] ++ (u32le pcm.length ++ pcm)))))))) =
        ([82, 73, 70, 70] ++ u32le (36 + pcm.length) ++ [87, 65, 86, 69] ++
          [102, 109, 116, 32, 16, 0, 0, 0, 1, 0, 1, 0] ++ u32le c.sampleRate ++
          u32le (c.sampleRate * bytesPerSample) ++ [2, 0, 16, 0] ++
          [100, 97, 116, 97] ++ u32le pcm.length) ++ pcm from by
      simp [List.append_assoc]]
    exact List.drop_left' (by simp [u32le])
  have hread : readU32le (u32le pcm.length ++ pcm) = pcm.length := by
    simp only [u32le, List.cons_append, List.nil_append, readU32le]
    omega
  rw [wavDecode, if_pos ⟨hTake4, hDrop8Take, hDrop36Take⟩]
  simp only [hDrop40, hDrop44, hread]
  simp

/-- Full run of the spec scenario (3 speech frames, then 10 silence frames,
source configuration): one speech-start on frame 3, one speech-end on frame
13, and a final segment holding the single triggering speech frame plus the
ten silence frames — 11 frames, hence 0.33 seconds. -/
theorem scenario_run :
    processStream sourceConfig initState scenarioFrames =
      ([Event.speechStart,
        Event.speechEnd (wavBytes sourceConfig (oneFrame ++ repcat 10 zeroFrame)) (33 / 100)],
        some ⟨false, 0, 0, oneFrame ++ repcat 10 zeroFrame⟩) := by
  have h1 : processStream sourceConfig initState (List.replicate 3 (okTrue oneFrame)) =
      ([Event.speechStart], some ⟨true, 0, 0, oneFrame⟩) := run3T oneFrame
  have h2 := run10F oneFrame zeroFrame
  have hdur : (((oneFrame ++ repcat 10 zeroFrame).length : ℚ) /
      ((sourceConfig.sampleRate * bytesPerSample : Nat) : ℚ)) = 33 / 100 := by
    have hl : (oneFrame ++ repcat 10 zeroFrame).length = 10560 := by
      norm_num [oneFrame, zeroFrame, repcat_length, List.length_append,
        List.length_replicate]
    rw [hl]
    norm_num [sourceConfig, bytesPerSample]
  rw [show scenarioFrames =
      List.replicate 3 (okTrue oneFrame) ++ List.replicate 10 (okFalse zeroFrame) from rfl]
  rw [processStream_append_ok sourceConfig initState ⟨true, 0, 0, oneFrame⟩ _ _ (by rw [h1])]
  rw [h1, h2, hdur]
  simp

/-- C1 counterexample: in the spec scenario (sample_rate 16000, 30 ms frames,
start_consecutive 3, end_consecutive 10; 3 speech frames then 10 silence
frames) the single speech-end carries duration 0.33 s, not
(3+10)*0.030 = 0.39 s: the two speech frames before the transition frame are
never appended, because the Segment is cleared at the start transition. -/
theorem scenario_duration_cex :
    endDurations (processStream sourceConfig initState scenarioFrames).1 = [33 / 100] ∧
    (33 / 100 : ℚ) ≠ (3 + 10) * (30 / 1000) := by
  constructor
  · rw [scenario_run]
    simp [endDurations]
  · norm_num

/-- C1 (amended): while in Speaking every processed frame's bytes are
appended, but the Segment is cleared on the start transition, so of the
start_consecutive frames that triggered the start only the final
(transition) frame is retained; in the scenario the single speech-end event
therefore carries (1+10) frames of audio and duration (1+10)*0.030 = 0.33
seconds. -/
theorem speaking_appends_tail_only_trigger :
    processStream sourceConfig initState scenarioFrames =
      ([Event.speechStart,
        Event.speechEnd (wavBytes sourceConfig (oneFrame ++ repcat 10 zeroFrame)) (33 / 100)],
        some ⟨false, 0, 0, oneFrame ++ repcat 10 zeroFrame⟩) ∧
    (33 / 100 : ℚ) = (1 + 10) * (30 / 1000) :=
  ⟨scenario_run, by norm_num⟩

/-- C2 (amended): a classifier exception is caught nowhere: it propagates
out of `_process_frame` and kills the processing loop at the faulting frame;
the faulting frame mutates no state, the counters are not updated, and no
later frame is ever processed. -/
theorem classifier_fault_uncaught (c : Config) (s : VADState) (pre : List FrameInput)
    (inp : FrameInput) (post : List FrameInput) (hpre : ∀ i ∈ pre, Benign i)
    (herr : inp.classify = CResult.err) :
    processStream c s (pre ++ inp :: post) = ((processStream c s pre).1, none) := by
  induction pre generalizing s with
  | nil =>
    rw [List.nil_append, processStream_cons_err c s s inp [] post (processFrame_err c s inp herr)]
    simp [processStream_nil]
  | cons i rest ih =>
    obtain ⟨evs, s1, hp⟩ := processFrame_benign_ok c s i (hpre i (by simp))
    rw [List.cons_append, processStream_cons_ok c s s1 i evs _ hp,
      ih s1 (fun x hx => hpre x (by simp [hx])),
      processStream_cons_ok c s s1 i evs rest hp]

/-- C2 counterexample: on a speech stream of length start_consecutive+5 = 8
whose classifier faults on frame 5, the engine does not continue: speech
start has already fired on frame 3, and on frame 5 the processing loop dies
(result `none`), so the remaining frames are never processed and no counter
is reset. -/
theorem classifier_fault_cex :
    processStream sourceConfig initState
      (List.replicate 4 (okTrue oneFrame) ++
        errFrame oneFrame :: List.replicate 3 (okTrue oneFrame)) =
      ([Event.speechStart], none) := by
  have h1 := run3T oneFrame
  rw [show (4 : Nat) = 3 + 1 from rfl, List.replicate_succ', List.append_assoc,
    List.singleton_append]
  rw [processStream_append_ok sourceConfig initState ⟨true, 0, 0, oneFrame⟩ _ _ (by rw [h1]), h1]
  rw [processStream_cons_ok sourceConfig _ ⟨true, 1, 0, oneFrame ++ oneFrame⟩ _ _ _
    (processFrame_okTrue_speaking sourceConfig 0 0 oneFrame oneFrame (by decide))]
  rw [processStream_cons_err sourceConfig _ ⟨true, 1, 0, oneFrame ++ oneFrame⟩ _ [] _
    (processFrame_err sourceConfig _ (errFrame oneFrame) rfl)]
  simp

/-- Witness for C2 at a concrete input: two benign speech frames, a faulting
frame, one more frame never reached. -/
theorem classifier_fault_uncaught_witness :
    (∀ i ∈ [okTrue [1], okTrue [1]], Benign i) ∧
    (errFrame [2]).classify = CResult.err ∧
    processStream sourceConfig initState
      ([okTrue [1], okTrue [1]] ++ errFrame [2] :: [okTrue [3]]) =
      ((processStream sourceConfig initState [okTrue [1], okTrue [1]]).1, none) :=
  ⟨by decide, rfl,
    classifier_fault_uncaught sourceConfig initState [okTrue [1], okTrue [1]]
      (errFrame [2]) [okTrue [3]] (by decide) rfl⟩

/-- C3 (amended): callback exceptions are not caught at the call site: an
exception raised by on_speech_start at the start transition, or by
on_speech_end at the end transition, propagates out of `_process_frame` with
the state mutations made before the call left in place, and the processing
loop dies there, so no later frame is processed. -/
theorem callback_fault_uncaught :
    (∀ (c : Config) (j e : Nat) (seg tbts : List Nat) (et : Bool),
        c.startConsecutive ≤ j + 1 →
        processFrame c ⟨false, j, e, seg⟩ ⟨CResult.ok true, true, et, tbts⟩ =
          ([], Except.error ⟨true, 0, 0, []⟩)) ∧
    (∀ (c : Config) (j e : Nat) (seg fbts : List Nat) (st : Bool),
        c.endConsecutive ≤ e + 1 →
        processFrame c ⟨true, j, e, seg⟩ ⟨CResult.ok false, st, true, fbts⟩ =
          ([], Except.error ⟨false, 0, 0, seg ++ fbts⟩)) ∧
    (∀ (c : Config) (s d : VADState) (inp : FrameInput) (evs : List Event)
        (rest : List FrameInput),
        processFrame c s inp = (evs, Except.error d) →
        processStream c s (inp :: rest) = (evs, none)) :=
  ⟨fun c j e seg tbts et h => processFrame_startThrow c j e seg tbts et h,
    fun c j e seg fbts st h => processFrame_endThrow c j e seg fbts st h,
    fun c s d inp evs rest h => processStream_cons_err c s d inp evs rest h⟩

/-- Witness for C3 at concrete inputs for each conjunct. -/
theorem callback_fault_uncaught_witness :
    (sourceConfig.startConsecutive ≤ 2 + 1) ∧
    processFrame sourceConfig ⟨false, 2, 0, []⟩ ⟨CResult.ok true, true, false, [5]⟩ =
      ([], Except.error ⟨true, 0, 0, []⟩) ∧
    (sourceConfig.endConsecutive ≤ 9 + 1) ∧
    processFrame sourceConfig ⟨true, 0, 9, [1]⟩ ⟨CResult.ok false, false, true, [2]⟩ =
      ([], Except.error ⟨false, 0, 0, [1] ++ [2]⟩) ∧
    processStream sourceConfig ⟨false, 2, 0, []⟩
      (⟨CResult.ok true, true, false, [5]⟩ :: [okTrue [5]]) = ([], none) :=
  ⟨by decide,
    callback_fault_uncaught.1 sourceConfig 2 0 [] [5] false (by decide),
    by decide,
    callback_fault_uncaught.2.1 sourceConfig 0 9 [1] [2] false (by decide),
    callback_fault_uncaught.2.2 sourceConfig ⟨false, 2, 0, []⟩ ⟨true, 0, 0, []⟩
      ⟨CResult.ok true, true, false, [5]⟩ [] [okTrue [5]]
      (callback_fault_uncaught.1 sourceConfig 2 0 [] [5] false (by decide))⟩

/-- C3 counterexample: with the source configuration, feeding two speech
frames and then a third speech frame whose on_speech_start callback raises,
the processing thread does not survive the callback invocation: the run ends
with a dead thread (`none`) at that very frame instead of continuing. -/
theorem callback_fault_cex :
    processStream sourceConfig initState
      (List.replicate 2 (okTrue oneFrame) ++ [⟨CResult.ok true, true, false, oneFrame⟩]) =
      ([], none) := by
  have h2 : processStream sourceConfig initState (List.replicate 2 (okTrue oneFrame)) =
      ([], some ⟨false, 2, 0, []⟩) := by
    simpa [initState] using stream_trues_idle sourceConfig 2 0 0 [] oneFrame (by decide)
  rw [processStream_append_ok sourceConfig initState ⟨false, 2, 0, []⟩ _ _ (by rw [h2]), h2]
  rw [processStream_cons_err sourceConfig _ ⟨true, 0, 0, []⟩ _ [] []
    (processFrame_startThrow sourceConfig 2 0 [] oneFrame false (by decide))]
  simp

/-- C4 (amended): a stop()/start() cycle drains the queue and gives the new
processing thread a fresh (empty) carry buffer, but the per-utterance
ActivityState, hysteresis counters and Segment buffer all persist unchanged:
they are initialised only in the constructor. -/
theorem stop_start_resets_only_queue_and_carry (e : Engine) :
    Engine.start (Engine.stop e) = ⟨true, [], [], e.vs⟩ := rfl

/-- C4 counterexample: after three speech frames the engine is Speaking with
a one-frame segment — a reachable state; stop() followed by start() leaves
exactly that per-utterance state in place, which differs from the
freshly-constructed state. -/
theorem stop_start_cex :
    (processStream sourceConfig initState (List.replicate 3 (okTrue oneFrame))).2 =
      some ⟨true, 0, 0, oneFrame⟩ ∧
    Engine.start (Engine.stop ⟨true, [], [], ⟨true, 0, 0, oneFrame⟩⟩) =
      ⟨true, [], [], ⟨true, 0, 0, oneFrame⟩⟩ ∧
    (⟨true, 0, 0, oneFrame⟩ : VADState) ≠ initState := by
  refine ⟨by rw [run3T], rfl, ?_⟩
  intro hcontra
  simp [initState] at hcontra

/-- C5: for every block sequence and positive frame size, the assembler
emits only frames of exactly the frame size, their concatenation followed by
the final carry buffer is exactly the concatenation of the input blocks (no
sample dropped or duplicated), and the carry buffer always stays shorter
than one frame. -/
theorem frame_assembler_exact (fb : Nat) (blocks : List (List Nat)) (h : 0 < fb) :
    (∀ f ∈ (assembleBlocks fb [] blocks).1, f.length = fb) ∧
    (assembleBlocks fb [] blocks).1.flatten ++ (assembleBlocks fb [] blocks).2 =
      blocks.flatten ∧
    (assembleBlocks fb [] blocks).2.length < fb := by
  have hmain := assembleBlocks_spec fb h blocks [] (by simpa using h)
  simpa using hmain

/-- Witness for C5: frame size 2 over blocks of sizes 1, 3 and 1. -/
theorem frame_assembler_exact_witness :
    (0 : Nat) < 2 ∧
    assembleBlocks 2 [] [[1], [2, 3, 4], [5]] = ([[1, 2], [3, 4]], [5]) ∧
    ((∀ f ∈ (assembleBlocks 2 [] [[1], [2, 3, 4], [5]]).1, f.length = 2) ∧
      (assembleBlocks 2 [] [[1], [2, 3, 4], [5]]).1.flatten ++
        (assembleBlocks 2 [] [[1], [2, 3, 4], [5]]).2 =
        [[1], [2, 3, 4], [5]].flatten ∧
      (assembleBlocks 2 [] [[1], [2, 3, 4], [5]]).2.length < 2) :=
  ⟨by decide, by simp [assembleBlocks, emitFrames],
    frame_assembler_exact 2 [[1], [2, 3, 4], [5]] (by decide)⟩

/-- From the fresh state, a silence run followed by exactly
`start_consecutive` speech frames fires exactly one speech-start, on the
last of those frames, leaving the engine Speaking with a zero start counter
and the segment holding only the triggering frame. -/
theorem stream_idle_then_fire (c : Config) (hS : 0 < c.startConsecutive)
    (hE : 0 < c.endConsecutive) (a : Nat) (tbts fbts : List Nat) :
    processStream c initState
        (List.replicate a (okFalse fbts) ++
          List.replicate c.startConsecutive (okTrue tbts)) =
      ([Event.speechStart], some ⟨true, 0, 0, tbts⟩) := by
  have hA : processStream c initState (List.replicate a (okFalse fbts)) =
      ([], some ⟨false, 0, a, []⟩) := by
    simpa [initState] using stream_falses_idle c hS a 0 [] fbts
  have hB : processStream c ⟨false, 0, a, []⟩
      (List.replicate (c.startConsecutive - 1) (okTrue tbts)) =
      ([], some ⟨false, c.startConsecutive - 1,
        if c.startConsecutive - 1 = 0 then a else 0, []⟩) := by
    simpa using stream_trues_idle c (c.startConsecutive - 1) 0 a [] tbts (by omega)
  have hC : processFrame c
      ⟨false, c.startConsecutive - 1,
        if c.startConsecutive - 1 = 0 then a else 0, []⟩ (okTrue tbts) =
      ([Event.speechStart], Except.ok ⟨true, 0, 0, tbts⟩) :=
    processFrame_okTrue_idle_fire c _ _ [] tbts (by omega) hE
  conv_lhs =>
    rw [show List.replicate c.startConsecutive (okTrue tbts) =
        List.replicate (c.startConsecutive - 1) (okTrue tbts) ++ [okTrue tbts] from by
      rw [← List.replicate_succ']
      congr 1
      omega]
  rw [processStream_append_ok c initState ⟨false, 0, a, []⟩ _ _ (by rw [hA]), hA]
  rw [processStream_append_ok c ⟨false, 0, a, []⟩
    ⟨false, c.startConsecutive - 1, if c.startConsecutive - 1 = 0 then a else 0, []⟩
    _ _ (by rw [hB]), hB]
  rw [processStream_cons_ok c _ _ _ _ _ hC, processStream_nil]
  simp

/-- C6: starting from Idle, on a stream made of `a` silence frames, then
`b ≥ start_consecutive` speech frames, then a silence tail, speech-start
fires exactly once over the whole stream; it has not fired on any prefix
shorter than `a + start_consecutive` frames; and immediately after the
`start_consecutive`-th consecutive speech frame it has fired, with the state
Speaking, the start counter reset to zero and the segment freshly created
from the triggering frame. -/
theorem speech_start_fires_once (c : Config) (a b t : Nat) (tbts fbts : List Nat)
    (hS : 0 < c.startConsecutive) (hE : 0 < c.endConsecutive)
    (hb : c.startConsecutive ≤ b) :
    countStart (processStream c initState
        (List.replicate a (okFalse fbts) ++ List.replicate b (okTrue tbts) ++
          List.replicate t (okFalse fbts))).1 = 1 ∧
    (∀ m, m < a + c.startConsecutive →
      countStart (processStream c initState
        ((List.replicate a (okFalse fbts) ++ List.replicate b (okTrue tbts) ++
          List.replicate t (okFalse fbts)).take m)).1 = 0) ∧
    processStream c initState
        (List.replicate a (okFalse fbts) ++
          List.replicate c.startConsecutive (okTrue tbts)) =
      ([Event.speechStart], some ⟨true, 0, 0, tbts⟩) := by
  have hfire := stream_idle_then_fire c hS hE a tbts fbts
  refine ⟨?_, ?_, hfire⟩
  · -- exactly once over the whole stream
    have hsplit : List.replicate a (okFalse fbts) ++ List.replicate b (okTrue tbts) ++
        List.replicate t (okFalse fbts) =
        (List.replicate a (okFalse fbts) ++
          List.replicate c.startConsecutive (okTrue tbts)) ++
        (List.replicate (b - c.startConsecutive) (okTrue tbts) ++
          List.replicate t (okFalse fbts)) := by
      conv_lhs =>
        rw [show b = c.startConsecutive + (b - c.startConsecutive) from by omega]
      rw [List.replicate_add]
      simp only [List.append_assoc]
    rw [hsplit,
      processStream_append_ok c initState ⟨true, 0, 0, tbts⟩ _ _ (by rw [hfire]), hfire]
    have hT := stream_trues_speaking c hE (b - c.startConsecutive) 0 tbts tbts
    rw [processStream_append_ok c ⟨true, 0, 0, tbts⟩
      ⟨true, 0 + (b - c.startConsecutive), 0, tbts ++ repcat (b - c.startConsecutive) tbts⟩
      _ _ (by rw [hT]), hT]
    rw [countStart_append, countStart_append, stream_falses_noStart c hS t _ fbts]
    rfl
  · -- never on a shorter prefix
    intro m hm
    by_cases hma : m ≤ a
    · have htake : (List.replicate a (okFalse fbts) ++ List.replicate b (okTrue tbts) ++
          List.replicate t (okFalse fbts)).take m = List.replicate m (okFalse fbts) := by
        rw [List.take_append_eq_append_take, List.take_append_eq_append_take]
        have h1 : min m a = m := by omega
        have h2 : m - a = 0 := by omega
        have h3 : m - (a + b) = 0 := by omega
        simp [List.take_replicate, List.length_append, List.length_replicate, h1, h2, h3]
      rw [htake]
      exact stream_falses_noStart c hS m initState fbts
    · push_neg at hma
      have htake : (List.replicate a (okFalse fbts) ++ List.replicate b (okTrue tbts) ++
          List.replicate t (okFalse fbts)).take m =
          List.replicate a (okFalse fbts) ++ List.replicate (m - a) (okTrue tbts) := by
        rw [List.take_append_eq_append_take, List.take_append_eq_append_take]
        have h1 : min m a = a := by omega
        have h2 : min (m - a) b = m - a := by omega
        have h3 : m - (a + b) = 0 := by omega
        simp [List.take_replicate, h1, h2, h3]
      rw [htake]
      have hA : processStream c initState (List.replicate a (okFalse fbts)) =
          ([], some ⟨false, 0, a, []⟩) := by
        simpa [initState] using stream_falses_idle c hS a 0 [] fbts
      rw [processStream_append_ok c initState ⟨false, 0, a, []⟩ _ _ (by rw [hA]), hA,
        stream_trues_idle c (m - a) 0 a [] tbts (by omega)]
      simp [countStart]

/-- C7: with the engine Speaking (end counter zero), a run of speech frames
followed by exactly `end_consecutive` silence frames fires exactly one
speech-end, on the last silence frame and on no shorter prefix; the engine
returns to Idle with the end counter reset to zero, and the notification
carries the WAV-encoded segment and its computed duration. -/
theorem speech_end_fires_once (c : Config) (x j : Nat) (seg tbts fbts : List Nat)
    (hE : 0 < c.endConsecutive) :
    processStream c ⟨true, j, 0, seg⟩
        (List.replicate x (okTrue tbts) ++
          List.replicate c.endConsecutive (okFalse fbts)) =
      ([Event.speechEnd
          (wavBytes c (seg ++ repcat x tbts ++ repcat c.endConsecutive fbts))
          (((seg ++ repcat x tbts ++ repcat c.endConsecutive fbts).length : ℚ) /
            ((c.sampleRate * bytesPerSample : Nat) : ℚ))],
        some ⟨false, 0, 0, seg ++ repcat x tbts ++ repcat c.endConsecutive fbts⟩) ∧
    ∀ m, m < x + c.endConsecutive →
      countEnd (processStream c ⟨true, j, 0, seg⟩
        ((List.replicate x (okTrue tbts) ++
          List.replicate c.endConsecutive (okFalse fbts)).take m)).1 = 0 := by
  have hT : processStream c ⟨true, j, 0, seg⟩ (List.replicate x (okTrue tbts)) =
      ([], some ⟨true, j + x, 0, seg ++ repcat x tbts⟩) :=
    stream_trues_speaking c hE x j seg tbts
  constructor
  · have hF : processStream c ⟨true, j + x, 0, seg ++ repcat x tbts⟩
        (List.replicate (c.endConsecutive - 1) (okFalse fbts)) =
        ([], some ⟨true, if c.endConsecutive - 1 = 0 then j + x else 0,
          c.endConsecutive - 1,
          seg ++ repcat x tbts ++ repcat (c.endConsecutive - 1) fbts⟩) := by
      simpa using stream_falses_speaking c (c.endConsecutive - 1) 0 (j + x)
        (seg ++ repcat x tbts) fbts (by omega)
    have hFire : processFrame c
        ⟨true, if c.endConsecutive - 1 = 0 then j + x else 0,
          c.endConsecutive - 1,
          seg ++ repcat x tbts ++ repcat (c.endConsecutive - 1) fbts⟩ (okFalse fbts) =
        ([Event.speechEnd
            (wavBytes c ((seg ++ repcat x tbts ++ repcat (c.endConsecutive - 1) fbts) ++ fbts))
            ((((seg ++ repcat x tbts ++ repcat (c.endConsecutive - 1) fbts) ++ fbts).length : ℚ) /
              ((c.sampleRate * bytesPerSample : Nat) : ℚ))],
          Except.ok ⟨false, 0, 0,
            (seg ++ repcat x tbts ++ repcat (c.endConsecutive - 1) fbts) ++ fbts⟩) :=
      processFrame_okFalse_speaking_fire c _ (c.endConsecutive - 1) _ fbts (by omega)
    have hseg : (seg ++ repcat x tbts ++ repcat (c.endConsecutive - 1) fbts) ++ fbts =
        seg ++ repcat x tbts ++ repcat c.endConsecutive fbts := by
      rw [List.append_assoc (seg ++ repcat x tbts), ← repcat_succ',
        show c.endConsecutive - 1 + 1 = c.endConsecutive from by omega]
    conv_lhs =>
      rw [show List.replicate c.endConsecutive (okFalse fbts) =
          List.replicate (c.endConsecutive - 1) (okFalse fbts) ++ [okFalse fbts] from by
        rw [← List.replicate_succ']
        congr 1
        omega]
    rw [processStream_append_ok c ⟨true, j, 0, seg⟩
      ⟨true, j + x, 0, seg ++ repcat x tbts⟩ _ _ (by rw [hT]), hT]
    rw [processStream_append_ok c ⟨true, j + x, 0, seg ++ repcat x tbts⟩
      ⟨true, if c.endConsecutive - 1 = 0 then j + x else 0, c.endConsecutive - 1,
        seg ++ repcat x tbts ++ repcat (c.endConsecutive - 1) fbts⟩ _ _ (by rw [hF]), hF]
    rw [processStream_cons_ok c _ _ _ _ _ hFire, processStream_nil]
    rw [hseg]
    simp
  · intro m hm
    by_cases hmx : m ≤ x
    · have htake : (List.replicate x (okTrue tbts) ++
          List.replicate c.endConsecutive (okFalse fbts)).take m =
          List.replicate m (okTrue tbts) := by
        rw [List.take_append_eq_append_take]
        have h1 : min m x = m := by omega
        have h2 : m - x = 0 := by omega
        simp [List.take_replicate, List.length_replicate, h1, h2]
      rw [htake, stream_trues_speaking c hE m j seg tbts]
      rfl
    · push_neg at hmx
      have htake : (List.replicate x (okTrue tbts) ++
          List.replicate c.endConsecutive (okFalse fbts)).take m =
          List.replicate x (okTrue tbts) ++ List.replicate (m - x) (okFalse fbts) := by
        rw [List.take_append_eq_append_take]
        have h1 : min m x = x := by omega
        have h2 : min (m - x) c.endConsecutive = m - x := by omega
        simp [List.take_replicate, List.length_replicate, h1, h2]
      have hFm : processStream c ⟨true, j + x, 0, seg ++ repcat x tbts⟩
          (List.replicate (m - x) (okFalse fbts)) =
          ([], some ⟨true, if m - x = 0 then j + x else 0, m - x,
            seg ++ repcat x tbts ++ repcat (m - x) fbts⟩) := by
        simpa using stream_falses_speaking c (m - x) 0 (j + x)
          (seg ++ repcat x tbts) fbts (by omega)
      rw [htake, processStream_append_ok c ⟨true, j, 0, seg⟩
        ⟨true, j + x, 0, seg ++ repcat x tbts⟩ _ _ (by rw [hT]), hT, hFm]
      rfl

/-- Witness for C6: one silence frame, four speech frames, twelve silence
frames, with the source configuration. -/
theorem speech_start_fires_once_witness :
    (0 < sourceConfig.startConsecutive) ∧ (0 < sourceConfig.endConsecutive) ∧
    (sourceConfig.startConsecutive ≤ 4) ∧
    countStart (processStream sourceConfig initState
        (List.replicate 1 (okFalse [7]) ++ List.replicate 4 (okTrue [6]) ++
          List.replicate 12 (okFalse [7]))).1 = 1 ∧
    countStart (processStream sourceConfig initState
        ((List.replicate 1 (okFalse [7]) ++ List.replicate 4 (okTrue [6]) ++
          List.replicate 12 (okFalse [7])).take 2)).1 = 0 ∧
    processStream sourceConfig initState
        (List.replicate 1 (okFalse [7]) ++
          List.replicate sourceConfig.startConsecutive (okTrue [6])) =
      ([Event.speechStart], some ⟨true, 0, 0, [6]⟩) := by
  obtain ⟨h1, h2, h3⟩ :=
    speech_start_fires_once sourceConfig 1 4 12 [6] [7] (by decide) (by decide) (by decide)
  exact ⟨by decide, by decide, by decide, h1, h2 2 (by decide), h3⟩

/-- Witness for C7: from a Speaking state, two speech frames then the ten
silence frames of the source configuration. -/
theorem speech_end_fires_once_witness :
    (0 < sourceConfig.endConsecutive) ∧
    processStream sourceConfig ⟨true, 1, 0, [9]⟩
        (List.replicate 2 (okTrue [6]) ++
          List.replicate sourceConfig.endConsecutive (okFalse [7])) =
      ([Event.speechEnd
          (wavBytes sourceConfig ([9] ++ repcat 2 [6] ++ repcat sourceConfig.endConsecutive [7]))
          ((([9] ++ repcat 2 [6] ++ repcat sourceConfig.endConsecutive [7]).length : ℚ) /
            ((sourceConfig.sampleRate * bytesPerSample : Nat) : ℚ))],
        some ⟨false, 0, 0, [9] ++ repcat 2 [6] ++ repcat sourceConfig.endConsecutive [7]⟩) ∧
    countEnd (processStream sourceConfig ⟨true, 1, 0, [9]⟩
        ((List.replicate 2 (okTrue [6]) ++
          List.replicate sourceConfig.endConsecutive (okFalse [7])).take 3)).1 = 0 := by
  obtain ⟨h1, h2⟩ := speech_end_fires_once sourceConfig 2 1 [9] [6] [7] (by decide)
  exact ⟨by decide, h1, h2 3 (by decide)⟩

/-- C8: every speech-end event of a fully processed frame carries a
container that a standard WAV reader decodes back to exactly the segment
bytes accumulated for that utterance (the post-frame segment), provided the
segment fits the container's 32-bit size fields. -/
theorem container_round_trip (c : Config) (s : VADState) (inp : FrameInput)
    (evs : List Event) (s' : VADState) (wav : List Nat) (d : ℚ)
    (hp : processFrame c s inp = (evs, Except.ok s'))
    (hm : Event.speechEnd wav d ∈ evs)
    (hlen : s'.segment.length < 4294967296) :
    wavDecode wav = some s'.segment := by
  obtain ⟨hw, -⟩ := speechEnd_shape c s inp evs s' wav d hp hm
  rw [hw]
  exact wavDecode_wavBytes c s'.segment hlen

/-- Witness for C8: a four-byte segment completed by an end transition. -/
theorem container_round_trip_witness :
    processFrame sourceConfig ⟨true, 0, 9, [1, 2]⟩ (okFalse [3, 4]) =
      ([Event.speechEnd (wavBytes sourceConfig ([1, 2] ++ [3, 4]))
          (((([1, 2] ++ [3, 4] : List Nat)).length : ℚ) /
            ((sourceConfig.sampleRate * bytesPerSample : Nat) : ℚ))],
        Except.ok ⟨false, 0, 0, [1, 2] ++ [3, 4]⟩) ∧
    ((⟨false, 0, 0, [1, 2] ++ [3, 4]⟩ : VADState)).segment.length < 4294967296 ∧
    wavDecode (wavBytes sourceConfig ([1, 2] ++ [3, 4])) =
      some ((⟨false, 0, 0, [1, 2] ++ [3, 4]⟩ : VADState)).segment := by
  have hp := processFrame_okFalse_speaking_fire sourceConfig 0 9 [1, 2] [3, 4] (by decide)
  refine ⟨hp, by decide, ?_⟩
  exact container_round_trip sourceConfig ⟨true, 0, 9, [1, 2]⟩ (okFalse [3, 4]) _
    ⟨false, 0, 0, [1, 2] ++ [3, 4]⟩ _ _ hp (List.mem_singleton.mpr rfl) (by decide)

/-- C9: every speech-end event of a fully processed frame carries a duration
equal to the accumulated segment's byte length divided by
(sample_rate * 2), the bit depth being fixed at 16 bits = 2 bytes per
sample. -/
theorem duration_formula (c : Config) (s : VADState) (inp : FrameInput)
    (evs : List Event) (s' : VADState) (wav : List Nat) (d : ℚ)
    (hp : processFrame c s inp = (evs, Except.ok s'))
    (hm : Event.speechEnd wav d ∈ evs) :
    d = (s'.segment.length : ℚ) / ((c.sampleRate * 2 : Nat) : ℚ) := by
  obtain ⟨-, hd⟩ := speechEnd_shape c s inp evs s' wav d hp hm
  exact hd

/-- Witness for C9: a two-byte segment completed by an end transition. -/
theorem duration_formula_witness :
    processFrame sourceConfig ⟨true, 5, 9, [7]⟩ (okFalse [8]) =
      ([Event.speechEnd (wavBytes sourceConfig ([7] ++ [8]))
          (((([7] ++ [8] : List Nat)).length : ℚ) /
            ((sourceConfig.sampleRate * bytesPerSample : Nat) : ℚ))],
        Except.ok ⟨false, 0, 0, [7] ++ [8]⟩) ∧
    (((([7] ++ [8] : List Nat)).length : ℚ) /
        ((sourceConfig.sampleRate * bytesPerSample : Nat) : ℚ)) =
      (((⟨false, 0, 0, [7] ++ [8]⟩ : VADState)).segment.length : ℚ) /
        ((sourceConfig.sampleRate * 2 : Nat) : ℚ) := by
  have hp := processFrame_okFalse_speaking_fire sourceConfig 5 9 [7] [8] (by decide)
  exact ⟨hp, duration_formula sourceConfig ⟨true, 5, 9, [7]⟩ (okFalse [8]) _
    ⟨false, 0, 0, [7] ++ [8]⟩ _ _ hp (List.mem_singleton.mpr rfl)⟩

/-- C10: the hysteresis invariant — at least one of the two counters is zero
after every processed frame, the start counter stays strictly below
start_consecutive while Idle, and the end counter stays strictly below
end_consecutive while Speaking — holds in the initial state and is preserved
by processing any frame on which the classifier returns a verdict and the
callbacks return normally. -/
theorem hysteresis_invariant (c : Config) (hS : 0 < c.startConsecutive)
    (hE : 0 < c.endConsecutive) :
    GateInv c initState ∧
    ∀ (s : VADState) (inp : FrameInput) (b : Bool) (evs : List Event) (s' : VADState),
      inp.classify = CResult.ok b → inp.startThrows = false → inp.endThrows = false →
      processFrame c s inp = (evs, Except.ok s') → GateInv c s → GateInv c s' :=
  ⟨⟨Or.inl rfl, fun _ => hS, by simp [initState]⟩,
    fun s inp b evs s' hcl hst het hp hinv =>
      GateInv_preserved c hS hE s inp b evs s' hcl hst het hp hinv⟩

/-- Witness for C10: the invariant at the initial state and across the start
transition out of a state with counter 2. -/
theorem hysteresis_invariant_witness :
    (0 < sourceConfig.startConsecutive) ∧ (0 < sourceConfig.endConsecutive) ∧
    GateInv sourceConfig initState ∧
    GateInv sourceConfig ⟨false, 2, 0, []⟩ ∧
    GateInv sourceConfig ⟨true, 0, 0, [1]⟩ := by
  refine ⟨by decide, by decide,
    (hysteresis_invariant sourceConfig (by decide) (by decide)).1, by decide, ?_⟩
  exact (hysteresis_invariant sourceConfig (by decide) (by decide)).2
    ⟨false, 2, 0, []⟩ (okTrue [1]) true [Event.speechStart] ⟨true, 0, 0, [1]⟩
    rfl rfl rfl
    (processFrame_okTrue_idle_fire sourceConfig 2 0 [] [1] (by decide) (by decide))
    (by decide)

/-- Witness for C4 (amended) at a concrete engine value. -/
theorem stop_start_resets_only_queue_and_carry_witness :
    Engine.start (Engine.stop ⟨false, [[1]], [2], ⟨true, 1, 0, [3]⟩⟩) =
      ⟨true, [], [], ⟨true, 1, 0, [3]⟩⟩ :=
  stop_start_resets_only_queue_and_carry ⟨false, [[1]], [2], ⟨true, 1, 0, [3]⟩⟩
